import Mathlib

/-!
Shallow embedding of the portfolio backend (src/backend/server.js).

The backend is an Express + Mongoose CRUD server over a single `Project`
collection.  We embed:

  * the request-body values relevant to the handlers (`JSValue`, `Body`),
    with JavaScript truthiness;
  * the Mongoose `projectSchema` validation (required / maxlength / enum /
    non-empty-array validators / URL-format validators, plus string casting
    of assigned values, where assigning an array to a string path is a cast
    failure reported through the save-time ValidationError, as Mongoose does);
  * the five `/api/projects` handlers: list, get-by-id, create, update,
    delete, each returning the JSON envelope `{success, message?, errors?,
    data?}` together with the resulting store;
  * MongoDB ObjectId well-formedness (`mongoose.Types.ObjectId.isValid`
    accepts 24-char hex strings and arbitrary 12-char strings, which cast to
    the ObjectId whose hex form is the byte-wise hex encoding).

Timestamps are modelled by an explicit `now : Nat` argument: the
`pre('save')` hook together with `timestamps: true` sets `updatedAt` to the
save time on every save, and `createdAt` to the save time on creation.
-/

/-- A JSON value as it can appear in a request-body field for this API:
a string, an array of strings, or null.  An absent field is `Option.none`
at the `Body` level (JSON bodies cannot carry `undefined`). -/
inductive JSValue where
  | vStr (s : String)
  | vArr (a : List String)
  | vNull
deriving DecidableEq

/-- JavaScript truthiness for `JSValue`: the empty string and `null` are
falsy; every other string and every array (even the empty array) is truthy. -/
def truthy : JSValue → Bool
  | .vStr s => !(s == "")
  | .vArr _ => true
  | .vNull => false

/-- Truthiness of a possibly absent field (`undefined` is falsy). -/
def truthyOpt : Option JSValue → Bool
  | some v => truthy v
  | none => false

/-- The JSON request body for create/update, restricted to the fields the
handlers read (all other keys are ignored by the code). -/
structure Body where
  title : Option JSValue
  description : Option JSValue
  category : Option JSValue
  technologies : Option JSValue
  highlights : Option JSValue
  image : Option JSValue
  github : Option JSValue
  live : Option JSValue
  impact : Option JSValue
deriving DecidableEq

/-- A stored Project document.  String paths are nullable in Mongoose, hence
`Option String`; array paths default to `[]`, hence plain lists.  `id` is the
string form of the document's ObjectId; timestamps are `Nat`. -/
structure Project where
  id : String
  title : Option String
  description : Option String
  category : Option String
  technologies : List String
  highlights : List String
  image : Option String
  github : Option String
  live : Option String
  impact : Option String
  createdAt : Nat
  updatedAt : Nat
deriving DecidableEq

/-- The store: the `Project` collection plus a counter from which fresh
ObjectIds are derived (MongoDB guarantees `_id` uniqueness). -/
structure Store where
  records : List Project
  nextId : Nat
deriving DecidableEq

def emptyStore : Store := { records := [], nextId := 0 }

/-- The uniform JSON envelope of a single-record endpoint, together with
the HTTP status code. -/
structure Resp where
  status : Nat
  success : Bool
  message : Option String := none
  errors : Option (List String) := none
  data : Option Project := none
deriving DecidableEq

/-- The envelope of the list endpoint (`data` is a list, plus `count`). -/
structure ListResp where
  status : Nat
  success : Bool
  count : Nat
  data : List Project
deriving DecidableEq

/-! ## ObjectId handling -/

def isHexDigit (c : Char) : Bool :=
  (('0' ≤ c) && (c ≤ '9')) || (('a' ≤ c) && (c ≤ 'f')) || (('A' ≤ c) && (c ≤ 'F'))

def hexLower (c : Char) : Char :=
  if ('A' ≤ c) && (c ≤ 'F') then Char.ofNat (c.toNat + 32) else c

/-- Two lowercase hex digits of a byte. -/
def hexByte (n : Nat) : String :=
  String.mk [Nat.digitChar (n / 16 % 16), Nat.digitChar (n % 16)]

/-- `mongoose.Types.ObjectId.isValid` + casting, combined: a 24-char hex
string casts to itself (lowercased); a 12-char string casts to the ObjectId
whose hex form is the hex encoding of its 12 bytes; everything else is
malformed.  Returns the canonical 24-char lowercase hex form. -/
def normalizeId (s : String) : Option String :=
  if s.length == 24 && s.data.all isHexDigit then
    some (String.mk (s.data.map hexLower))
  else if s.length == 12 then
    some (String.join (s.data.map (fun c => hexByte (c.toNat % 256))))
  else
    none

def isValidObjectId (s : String) : Bool := (normalizeId s).isSome

/-- Server-assigned ObjectId for the `n`-th created document: `n` in hex,
zero-padded to 24 digits. -/
def objectIdOfNat (n : Nat) : String :=
  let ds := Nat.toDigits 16 n
  String.mk (List.replicate (24 - ds.length) '0' ++ ds)

/-! ## Casting and schema validation (the Mongoose `projectSchema`) -/

/-- Casting a JS value to a Mongoose `String` path: strings stay, `null`
stays null, arrays fail to cast (the failure surfaces as a message inside
the save-time ValidationError). -/
def castStr (path : String) : JSValue → Except String (Option String)
  | .vStr s => .ok (some s)
  | .vNull => .ok none
  | .vArr _ => .error ("Cast to string failed at path " ++ path)

/-- JavaScript `String.prototype.trim`: strip leading and trailing
whitespace (as a structural list operation, so proofs can evaluate it). -/
def jsTrim (s : String) : String :=
  String.mk (((s.data.dropWhile Char.isWhitespace).reverse.dropWhile Char.isWhitespace).reverse)

/-- The `trim: true` setter on `title`, applied when a value is assigned. -/
def trimEx : Except String (Option String) → Except String (Option String)
  | .ok (some s) => .ok (some (jsTrim s))
  | e => e

/-- Value of a cast result (only used once validation reported no error,
so the `.error` branch is never relevant there). -/
def exVal : Except String (Option String) → Option String
  | .ok v => v
  | .error _ => none

def validCategories : List String :=
  ["AI/Computer Vision", "Data Analytics", "NLP/AI", "Security/Mobile", "Web Development"]

/-- required + maxlength validation of a nullable string path (Mongoose
`required` fails on null/undefined/empty string and short-circuits the
remaining validators; a failed cast reports its own message). -/
def reqMaxlen (reqMsg maxMsg : String) (maxLen : Nat) :
    Except String (Option String) → List String
  | .error m => [m]
  | .ok none => [reqMsg]
  | .ok (some s) => if s == "" then [reqMsg] else if maxLen < s.length then [maxMsg] else []

def valTitle (e : Except String (Option String)) : List String :=
  reqMaxlen "Please provide a project title" "Title cannot exceed 200 characters" 200 e

def valDescription (e : Except String (Option String)) : List String :=
  reqMaxlen "Please provide a description" "Description cannot exceed 2000 characters" 2000 e

/-- required + enum validation of `category`; the enum message interpolates
the offending value. -/
def valCategory : Except String (Option String) → List String
  | .error m => [m]
  | .ok none => ["Please select a category"]
  | .ok (some s) =>
    if s == "" then ["Please select a category"]
    else if s ∈ validCategories then []
    else [s ++ " is not a valid category"]

/-- `technologies`: Mongoose `required` on an array path fails on the empty
array (and short-circuits the custom non-empty validator, which the empty
array would fail as well). -/
def valTechnologies (l : List String) : List String :=
  if l.isEmpty then ["Please add at least one technology"] else []

/-- `highlights`: not required, but the custom validator `v.length > 0`
runs on the (always set, possibly empty) array value. -/
def valHighlights (l : List String) : List String :=
  if l.isEmpty then ["Add at least one highlight"] else []

/-- `image` has no validators; only a failed cast can report. -/
def valImage : Except String (Option String) → List String
  | .error m => [m]
  | .ok _ => []

/-- URL-format validator: `if (!v) return true; return pattern.test(v)`. -/
def valUrl (msg : String) (check : String → Bool) :
    Except String (Option String) → List String
  | .error m => [m]
  | .ok none => []
  | .ok (some s) => if s == "" then [] else if check s then [] else [msg]

/-- String prefix test as a structural list operation. -/
def strPrefixOf (p s : String) : Bool := p.data.isPrefixOf s.data

/-- Drop the first `n` characters (structural). -/
def strDrop (s : String) (n : Nat) : String := String.mk (s.data.drop n)

/-- Strip the `https?:\/\/` part of the URL patterns. -/
def afterScheme (s : String) : Option String :=
  if strPrefixOf "https://" s then some (strDrop s 8)
  else if strPrefixOf "http://" s then some (strDrop s 7)
  else none

/-- The regex `^https?:\/\/(www\.)?github\.com\//`. -/
def matchesGithubUrl (s : String) : Bool :=
  match afterScheme s with
  | none => false
  | some r => strPrefixOf "github.com/" r || strPrefixOf "www.github.com/" r

/-- The regex `^https?:\/\//`. -/
def matchesLiveUrl (s : String) : Bool := (afterScheme s).isSome

def githubUrlMsg : String := "Please provide a valid GitHub URL"

def valGithub (e : Except String (Option String)) : List String :=
  valUrl githubUrlMsg matchesGithubUrl e

def valLive (e : Except String (Option String)) : List String :=
  valUrl "Please provide a valid URL" matchesLiveUrl e

def valImpact : Except String (Option String) → List String
  | .error m => [m]
  | .ok none => []
  | .ok (some s) => if 500 < s.length then ["Impact description cannot exceed 500 characters"] else []

/-- The document candidate a handler is about to save: scalar paths carry
their cast result, array paths their coerced value. -/
structure Candidate where
  title : Except String (Option String)
  description : Except String (Option String)
  category : Except String (Option String)
  technologies : List String
  highlights : List String
  image : Except String (Option String)
  github : Except String (Option String)
  live : Except String (Option String)
  impact : Except String (Option String)

/-- All field-level error messages of a save, in schema-path order; the
save succeeds iff this list is empty (`Object.values(error.errors)`). -/
def candErrors (c : Candidate) : List String :=
  valTitle c.title ++ valDescription c.description ++ valCategory c.category ++
    valTechnologies c.technologies ++ valHighlights c.highlights ++ valImage c.image ++
    valGithub c.github ++ valLive c.live ++ valImpact c.impact

/-- The document written by a successful save. -/
def candDoc (docId : String) (createdAt updatedAt : Nat) (c : Candidate) : Project :=
  { id := docId, title := exVal c.title, description := exVal c.description,
    category := exVal c.category, technologies := c.technologies,
    highlights := c.highlights, image := exVal c.image, github := exVal c.github,
    live := exVal c.live, impact := exVal c.impact,
    createdAt := createdAt, updatedAt := updatedAt }

/-! ## Handlers -/

/-- `Array.isArray(v) ? v : [v]` — scalar-to-singleton coercion.  Callers
guard on truthiness, so `vNull` never reaches this (mapped to `[]`). -/
def coerceArr : JSValue → List String
  | .vArr a => a
  | .vStr s => [s]
  | .vNull => []

/-- `req.body.x || null`: a falsy or absent value becomes null. -/
def orNullJS : Option JSValue → JSValue
  | some v => if truthy v then v else .vNull
  | none => .vNull

/-- The POST handler's presence check:
`if (!title || !description || !category || !technologies)`. -/
def presenceOk (b : Body) : Bool :=
  truthyOpt b.title && truthyOpt b.description && truthyOpt b.category &&
    truthyOpt b.technologies

/-- The document candidate built by `new Project({...})` in the POST
handler (server.js lines 247-257). -/
def createCandidate (b : Body) : Candidate :=
  { title := trimEx (castStr "title" (b.title.getD .vNull)),
    description := castStr "description" (b.description.getD .vNull),
    category := castStr "category" (b.category.getD .vNull),
    technologies := coerceArr (b.technologies.getD .vNull),
    highlights := match b.highlights with
      | some v => if truthy v then coerceArr v else []
      | none => [],
    image := castStr "image" (orNullJS b.image),
    github := castStr "github" (orNullJS b.github),
    live := castStr "live" (orNullJS b.live),
    impact := castStr "impact" (orNullJS b.impact) }

/-- POST `/api/projects` after the presence check passed: build, validate,
save (server.js lines 246-283). -/
def createValid (st : Store) (now : Nat) (b : Body) : Resp × Store :=
  let errs := candErrors (createCandidate b)
  if errs.isEmpty then
    let doc := candDoc (objectIdOfNat st.nextId) now now (createCandidate b)
    ({ status := 201, success := true, message := some "Project created successfully",
       data := some doc },
     { records := st.records ++ [doc], nextId := st.nextId + 1 })
  else
    ({ status := 400, success := false, message := some "Validation error",
       errors := some errs }, st)

/-- POST `/api/projects` (server.js lines 234-284). -/
def createProject (st : Store) (now : Nat) (b : Body) : Resp × Store :=
  if presenceOk b then createValid st now b
  else
    ({ status := 400, success := false,
       message := some "Please provide all required fields: title, description, category, technologies" },
     st)

def invalidIdResp : Resp := { status := 400, success := false, message := some "Invalid project ID" }

def notFoundResp : Resp := { status := 404, success := false, message := some "Project not found" }

/-- `Project.findById`, after the ObjectId shape check. -/
def findProjectById (st : Store) (idStr : String) : Option Project :=
  match normalizeId idStr with
  | none => none
  | some nid => st.records.find? (fun q => q.id == nid)

/-- GET `/api/projects/:id` (server.js lines 202-231). -/
def getProject (st : Store) (idStr : String) : Resp :=
  match normalizeId idStr with
  | none => invalidIdResp
  | some nid =>
    match st.records.find? (fun q => q.id == nid) with
    | none => notFoundResp
    | some p => { status := 200, success := true, data := some p }

/-- PUT field application for `title`/`description`/`category`:
`if (req.body.x) project.x = req.body.x` — only truthy values overwrite. -/
def newScalarTruthy (path : String) (old : Option String) :
    Option JSValue → Except String (Option String)
  | some v => if truthy v then castStr path v else .ok old
  | none => .ok old

/-- Same as `newScalarTruthy` but through the `trim` setter (title). -/
def newScalarTruthyTrim (path : String) (old : Option String)
    (bv : Option JSValue) : Except String (Option String) :=
  match bv with
  | some v => if truthy v then trimEx (castStr path v) else .ok old
  | none => .ok old

/-- PUT field application for `technologies`/`highlights`: truthy-gated,
with scalar-to-singleton coercion. -/
def newArrTruthy (old : List String) : Option JSValue → List String
  | some v => if truthy v then coerceArr v else old
  | none => old

/-- PUT field application for `image`/`github`/`live`/`impact`:
`if (req.body.x !== undefined) project.x = req.body.x` — any supplied
value, including falsy ones, overwrites. -/
def newScalarDefined (path : String) (old : Option String) :
    Option JSValue → Except String (Option String)
  | some v => castStr path v
  | none => .ok old

/-- The candidate document of a PUT on the fetched record `p`
(server.js lines 305-322). -/
def updateCandidate (p : Project) (b : Body) : Candidate :=
  { title := newScalarTruthyTrim "title" p.title b.title,
    description := newScalarTruthy "description" p.description b.description,
    category := newScalarTruthy "category" p.category b.category,
    technologies := newArrTruthy p.technologies b.technologies,
    highlights := newArrTruthy p.highlights b.highlights,
    image := newScalarDefined "image" p.image b.image,
    github := newScalarDefined "github" p.github b.github,
    live := newScalarDefined "live" p.live b.live,
    impact := newScalarDefined "impact" p.impact b.impact }

/-- PUT `/api/projects/:id` once the record `p` was found: apply fields,
validate the whole document (Mongoose validates every path on save by
default), persist (server.js lines 305-347). -/
def updateFound (st : Store) (now : Nat) (b : Body) (p : Project) : Resp × Store :=
  let errs := candErrors (updateCandidate p b)
  if errs.isEmpty then
    let doc := candDoc p.id p.createdAt now (updateCandidate p b)
    ({ status := 200, success := true, message := some "Project updated successfully",
       data := some doc },
     { records := st.records.map (fun q => if q.id == p.id then doc else q),
       nextId := st.nextId })
  else
    ({ status := 400, success := false, message := some "Validation error",
       errors := some errs }, st)

/-- PUT `/api/projects/:id` (server.js lines 287-348). -/
def updateProject (st : Store) (now : Nat) (idStr : String) (b : Body) : Resp × Store :=
  match normalizeId idStr with
  | none => (invalidIdResp, st)
  | some nid =>
    match st.records.find? (fun q => q.id == nid) with
    | none => (notFoundResp, st)
    | some p => updateFound st now b p

/-- DELETE `/api/projects/:id` (server.js lines 351-381);
`findByIdAndDelete` removes the matched document. -/
def deleteProject (st : Store) (idStr : String) : Resp × Store :=
  match normalizeId idStr with
  | none => (invalidIdResp, st)
  | some nid =>
    match st.records.find? (fun q => q.id == nid) with
    | none => (notFoundResp, st)
    | some p =>
      ({ status := 200, success := true, message := some "Project deleted successfully",
         data := some p },
       { records := st.records.eraseP (fun q => q.id == nid), nextId := st.nextId })

/-! ## List endpoint -/

/-- BSON ordering on a nullable string field: null sorts before every
string. -/
def optStrLe (a b : Option String) : Prop :=
  match a, b with
  | none, _ => True
  | some _, none => False
  | some s, some t => s ≤ t

instance (a b : Option String) : Decidable (optStrLe a b) := by
  unfold optStrLe
  match a, b with
  | none, _ => exact inferInstanceAs (Decidable True)
  | some _, none => exact inferInstanceAs (Decidable False)
  | some s, some t => exact inferInstanceAs (Decidable (s ≤ t))

/-- Ascending lexicographic title order (`.sort({ title: 1 })`). -/
def titleLe (a b : Project) : Prop := optStrLe a.title b.title

/-- Descending creation-time order (`.sort({ createdAt: -1 })`). -/
def createdGe (a b : Project) : Prop := b.createdAt ≤ a.createdAt

instance : DecidableRel titleLe :=
  fun a b => inferInstanceAs (Decidable (optStrLe a.title b.title))

instance : DecidableRel createdGe :=
  fun a b => inferInstanceAs (Decidable (b.createdAt ≤ a.createdAt))

lemma optStrLe_total (a b : Option String) : optStrLe a b ∨ optStrLe b a := by
  match a, b with
  | none, _ => exact Or.inl trivial
  | some s, none => exact Or.inr trivial
  | some s, some t => exact le_total s t

lemma optStrLe_trans {a b c : Option String} (h : optStrLe a b) (h' : optStrLe b c) :
    optStrLe a c := by
  match a, b, c with
  | none, _, _ => trivial
  | some s, none, _ => exact absurd h (by simp [optStrLe])
  | some s, some t, none => exact absurd h' (by simp [optStrLe])
  | some s, some t, some u => exact le_trans h h'

instance : IsTotal Project titleLe := ⟨fun a b => optStrLe_total a.title b.title⟩

instance : IsTrans Project titleLe := ⟨fun _ _ _ h h' => optStrLe_trans h h'⟩

instance : IsTotal Project createdGe := ⟨fun a b => Nat.le_total b.createdAt a.createdAt⟩

instance : IsTrans Project createdGe := ⟨fun _ _ _ h h' => Nat.le_trans h' h⟩

/-- The `category` query filter: `if (category) filter.category = category`
(an empty query value is falsy and applies no filter). -/
def filteredRecords (st : Store) (cat : Option String) : List Project :=
  match cat with
  | none => st.records
  | some c => if c == "" then st.records else st.records.filter (fun p => p.category == some c)

/-- GET `/api/projects` (server.js lines 165-199): filter, then sort —
`title` ascending if `sort === 'title'`, creation time descending if
`sort === 'newest'`, creation time descending otherwise.  MongoDB's sort is
modelled as a sorting of the filtered list. -/
def listProjects (st : Store) (cat : Option String) (sortQ : Option String) : ListResp :=
  let base := filteredRecords st cat
  let sorted :=
    if sortQ == some "title" then base.insertionSort titleLe
    else if sortQ == some "newest" then base.insertionSort createdGe
    else base.insertionSort createdGe
  { status := 200, success := true, count := sorted.length, data := sorted }

/-! ## Reachable stores -/

/-- Stores reachable from the empty collection through the three mutating
handlers, with a monotone request clock. -/
inductive Reachable : Store → Nat → Prop where
  | init : Reachable emptyStore 0
  | create (s : Store) (t t' : Nat) (b : Body) :
      Reachable s t → t ≤ t' → Reachable (createProject s t' b).2 t'
  | update (s : Store) (t t' : Nat) (idStr : String) (b : Body) :
      Reachable s t → t ≤ t' → Reachable (updateProject s t' idStr b).2 t'
  | delete (s : Store) (t : Nat) (idStr : String) :
      Reachable s t → Reachable (deleteProject s idStr).2 t

/-! ## Concrete fixtures for witnesses -/

/-- A fully valid create body (all required fields, a non-empty highlights
list, no optional URL fields). -/
def demoBody : Body :=
  { title := some (.vStr "T"), description := some (.vStr "D"),
    category := some (.vStr "Web Development"), technologies := some (.vArr ["js"]),
    highlights := some (.vArr ["h"]), image := none, github := none, live := none,
    impact := none }

/-- A valid stored record. -/
def demoProj : Project :=
  { id := "aaaaaaaaaaaaaaaaaaaaaaaa", title := some "T", description := some "D",
    category := some "Web Development", technologies := ["js"], highlights := ["h"],
    image := none, github := none, live := none, impact := none,
    createdAt := 1, updatedAt := 1 }

/-- A store holding exactly `demoProj`. -/
def demoStore : Store := { records := [demoProj], nextId := 1 }

/-! ## C1 — create with missing title -/

/-- Claim C1, counterexample: for the concrete create request missing
`title`, the response carries no list of field-level error messages at all
(the `errors` field is absent), refuting the claim as stated. -/
theorem spec_c1_counterexample :
    ¬ ((createProject demoStore 5 { demoBody with title := none }).1.status = 400 ∧
       ∃ l, (createProject demoStore 5 { demoBody with title := none }).1.errors = some l ∧
         ∃ m ∈ l, "title".data <:+: m.data) := by
  intro h
  obtain ⟨-, l, hl, -⟩ := h
  have hnone : (createProject demoStore 5 { demoBody with title := none }).1.errors = none := by
    decide
  rw [hnone] at hl
  cases hl

/-- Claim C1 (amended): for every create request whose body is missing the
`title` field, the response has status 400 and carries a single message
naming the required fields (title among them), with no field-level error
list. -/
theorem spec_c1_amended (st : Store) (now : Nat) (b : Body) (h : b.title = none) :
    (createProject st now b).1.status = 400 ∧
    (createProject st now b).1.message =
      some "Please provide all required fields: title, description, category, technologies" ∧
    (createProject st now b).1.errors = none := by
  have hp : presenceOk b = false := by simp [presenceOk, h, truthyOpt]
  simp [createProject, hp]

/-- Witness for `spec_c1_amended` at a concrete body. -/
theorem spec_c1_witness :
    (createProject demoStore 5 { demoBody with title := none }).1.status = 400 ∧
    (createProject demoStore 5 { demoBody with title := none }).1.message =
      some "Please provide all required fields: title, description, category, technologies" ∧
    (createProject demoStore 5 { demoBody with title := none }).1.errors = none :=
  spec_c1_amended demoStore 5 { demoBody with title := none } rfl

/-! ## C2 — create with valid required fields and absent highlights -/

/-- Claim C2 (code bug): the create request with non-empty title,
description, a valid category, non-empty technologies and no optional
fields at all (in particular no `highlights`) is answered 400, not 201:
the handler substitutes `[]` for the absent highlights and the schema's
non-empty validator rejects it.  The store is left unchanged. -/
theorem spec_c2_bug :
    (createProject emptyStore 5 { demoBody with highlights := none }).1.status = 400 ∧
    (createProject emptyStore 5 { demoBody with highlights := none }).1.errors =
      some ["Add at least one highlight"] ∧
    (createProject emptyStore 5 { demoBody with highlights := none }).2 = emptyStore := by
  decide

/-! ## C5 — malformed id vs not found -/

/-- Claim C5: for get, update and delete, a malformed id yields 400 with
the store untouched; a well-formed id matching no record yields 404 with
the store untouched; and 404 is only ever produced when a store lookup
confirmed absence. -/
theorem spec_c5 (st : Store) (now : Nat) (idStr : String) (b : Body) :
    (isValidObjectId idStr = false →
      (getProject st idStr).status = 400 ∧
      (updateProject st now idStr b).1.status = 400 ∧ (updateProject st now idStr b).2 = st ∧
      (deleteProject st idStr).1.status = 400 ∧ (deleteProject st idStr).2 = st) ∧
    (isValidObjectId idStr = true → findProjectById st idStr = none →
      (getProject st idStr).status = 404 ∧
      (updateProject st now idStr b).1.status = 404 ∧ (updateProject st now idStr b).2 = st ∧
      (deleteProject st idStr).1.status = 404 ∧ (deleteProject st idStr).2 = st) ∧
    ((getProject st idStr).status = 404 → findProjectById st idStr = none) ∧
    ((updateProject st now idStr b).1.status = 404 → findProjectById st idStr = none) ∧
    ((deleteProject st idStr).1.status = 404 → findProjectById st idStr = none) := by
  refine ⟨?_, ?_, ?_, ?_, ?_⟩
  · intro h
    have hn : normalizeId idStr = none := by
      cases hc : normalizeId idStr with
      | none => rfl
      | some nid => rw [isValidObjectId, hc] at h; cases h
    simp [getProject, updateProject, deleteProject, hn, invalidIdResp]
  · intro hv hf
    cases hc : normalizeId idStr with
    | none => rw [isValidObjectId, hc] at hv; cases hv
    | some nid =>
      simp only [findProjectById, hc] at hf
      simp [getProject, updateProject, deleteProject, hc, hf, notFoundResp]
  · intro h
    cases hc : normalizeId idStr with
    | none => simp [getProject, hc, invalidIdResp] at h
    | some nid =>
      cases hfind : st.records.find? (fun q => q.id == nid) with
      | none => simp only [findProjectById, hc]; exact hfind
      | some p => simp [getProject, hc, hfind] at h
  · intro h
    cases hc : normalizeId idStr with
    | none => simp [updateProject, hc, invalidIdResp] at h
    | some nid =>
      cases hfind : st.records.find? (fun q => q.id == nid) with
      | none => simp only [findProjectById, hc]; exact hfind
      | some p =>
        simp only [updateProject, hc, hfind, updateFound] at h
        split at h <;> simp at h
  · intro h
    cases hc : normalizeId idStr with
    | none => simp [deleteProject, hc, invalidIdResp] at h
    | some nid =>
      cases hfind : st.records.find? (fun q => q.id == nid) with
      | none => simp only [findProjectById, hc]; exact hfind
      | some p => simp [deleteProject, hc, hfind] at h

/-- Witness for `spec_c5`: a malformed id is answered 400 and a well-formed
absent id 404, on a concrete store. -/
theorem spec_c5_witness :
    (getProject demoStore "zz").status = 400 ∧
    (getProject demoStore "bbbbbbbbbbbbbbbbbbbbbbbb").status = 404 :=
  ⟨((spec_c5 demoStore 5 "zz" demoBody).1 (by decide)).1,
   ((spec_c5 demoStore 5 "bbbbbbbbbbbbbbbbbbbbbbbb" demoBody).2.1 (by decide) (by decide)).1⟩

/-! ## C9 — delete semantics -/

/-- After erasing the (unique) record matching `nid`, no record matches. -/
lemma find?_eraseP_eq_none {l : List Project} {nid : String} {p : Project}
    (hnd : (l.map Project.id).Nodup)
    (hf : l.find? (fun q => q.id == nid) = some p) :
    (l.eraseP (fun q => q.id == nid)).find? (fun q => q.id == nid) = none := by
  induction l with
  | nil => cases hf
  | cons a l ih =>
    rw [List.map_cons, List.nodup_cons] at hnd
    rw [List.eraseP_cons]
    cases hab : a.id == nid with
    | true =>
      simp only [hab, cond_true]
      apply List.find?_eq_none.mpr
      intro q hq hpq
      have haid : a.id = nid := by simpa using hab
      have hqid : q.id = nid := by simpa using hpq
      have hmem : a.id ∈ List.map Project.id l := by
        have := List.mem_map_of_mem Project.id hq
        rwa [hqid, ← haid] at this
      exact hnd.1 hmem
    | false =>
      simp only [hab, cond_false]
      rw [List.find?_cons, hab]
      rw [List.find?_cons, hab] at hf
      exact ih hnd.2 hf

/-- Claim C9: deleting a malformed id returns 400; deleting a well-formed
id matching no record returns 404; deleting an existing record returns 200
with the removed record as the response data, and a subsequent get on the
same id returns 404. -/
theorem spec_c9 (st : Store) (idStr : String) (p : Project) :
    (isValidObjectId idStr = false → (deleteProject st idStr).1.status = 400) ∧
    (isValidObjectId idStr = true → findProjectById st idStr = none →
      (deleteProject st idStr).1.status = 404) ∧
    ((st.records.map Project.id).Nodup → findProjectById st idStr = some p →
      (deleteProject st idStr).1.status = 200 ∧
      (deleteProject st idStr).1.data = some p ∧
      (getProject (deleteProject st idStr).2 idStr).status = 404) := by
  refine ⟨?_, ?_, ?_⟩
  · intro h
    cases hc : normalizeId idStr with
    | none => simp [deleteProject, hc, invalidIdResp]
    | some nid => rw [isValidObjectId, hc] at h; cases h
  · intro hv hf
    cases hc : normalizeId idStr with
    | none => rw [isValidObjectId, hc] at hv; cases hv
    | some nid =>
      simp only [findProjectById, hc] at hf
      simp [deleteProject, hc, hf, notFoundResp]
  · intro hnd hf
    cases hc : normalizeId idStr with
    | none => simp only [findProjectById, hc] at hf; cases hf
    | some nid =>
      simp only [findProjectById, hc] at hf
      have herase := find?_eraseP_eq_none hnd hf
      refine ⟨?_, ?_, ?_⟩
      · simp [deleteProject, hc, hf]
      · simp [deleteProject, hc, hf]
      · simp [deleteProject, hc, hf, getProject, herase, notFoundResp]

/-- Witness for `spec_c9`: deleting the record of `demoStore` answers 200
with the record, and the subsequent get answers 404. -/
theorem spec_c9_witness :
    (deleteProject demoStore "aaaaaaaaaaaaaaaaaaaaaaaa").1.status = 200 ∧
    (deleteProject demoStore "aaaaaaaaaaaaaaaaaaaaaaaa").1.data = some demoProj ∧
    (getProject (deleteProject demoStore "aaaaaaaaaaaaaaaaaaaaaaaa").2
      "aaaaaaaaaaaaaaaaaaaaaaaa").status = 404 :=
  (spec_c9 demoStore "aaaaaaaaaaaaaaaaaaaaaaaa" demoProj).2.2 (by decide) (by decide)

/-! ## C8 — list ordering -/

/-- Claim C8: with `sort=title` the list endpoint returns the (filtered)
records in ascending lexicographic title order; with no sort parameter or
any unrecognized sort value it returns them in descending creation-time
order.  In both cases the output is a permutation of the matching records. -/
theorem spec_c8 (st : Store) (cat : Option String) (sortQ : Option String) :
    ((listProjects st cat (some "title")).data.Pairwise titleLe ∧
      (listProjects st cat (some "title")).data.Perm (filteredRecords st cat)) ∧
    (sortQ ≠ some "title" → sortQ ≠ some "newest" →
      (listProjects st cat sortQ).data.Pairwise createdGe ∧
      (listProjects st cat sortQ).data.Perm (filteredRecords st cat)) := by
  constructor
  · constructor
    · have h := List.sorted_insertionSort titleLe (filteredRecords st cat)
      simpa [listProjects, List.Sorted] using h
    · simpa [listProjects] using List.perm_insertionSort titleLe (filteredRecords st cat)
  · intro h1 h2
    have hne1 : (sortQ == some "title") = false := by simpa using h1
    have hne2 : (sortQ == some "newest") = false := by simpa using h2
    constructor
    · have h := List.sorted_insertionSort createdGe (filteredRecords st cat)
      simpa [listProjects, hne1, hne2, List.Sorted] using h
    · simpa [listProjects, hne1, hne2] using
        List.perm_insertionSort createdGe (filteredRecords st cat)

/-- Witness for `spec_c8`: on a concrete store, title sort is title-sorted
and an unrecognized sort value is creation-time sorted. -/
theorem spec_c8_witness :
    (listProjects demoStore none (some "title")).data.Pairwise titleLe ∧
    (listProjects demoStore none (some "xyz")).data.Pairwise createdGe :=
  ⟨(spec_c8 demoStore none (some "xyz")).1.1,
   ((spec_c8 demoStore none (some "xyz")).2 (by decide) (by decide)).1⟩

/-! ## C7 - github URL format checking -/

/-- The enum violation message never coincides with the GitHub URL
message, whatever the offending value. -/
lemma ghMsg_ne_catMsg (s : String) : s ++ " is not a valid category" ≠ githubUrlMsg := by
  intro h
  have h2 : (s ++ " is not a valid category").data.getLast? = githubUrlMsg.data.getLast? := by
    rw [h]
  rw [String.data_append, List.getLast?_append] at h2
  have h3 : (" is not a valid category").data.getLast?.or s.data.getLast? = some 'y' := rfl
  rw [h3] at h2
  exact absurd h2 (by decide)

lemma ghMsg_notin_valTitle (v : JSValue) :
    githubUrlMsg ∉ valTitle (trimEx (castStr "title" v)) := by
  cases v with
  | vStr s =>
    simp only [castStr, trimEx, valTitle, reqMaxlen]
    split
    · decide
    · split
      · decide
      · simp
  | vArr a =>
    simp only [castStr, trimEx, valTitle, reqMaxlen]
    decide
  | vNull => decide

lemma ghMsg_notin_valDescription (v : JSValue) :
    githubUrlMsg ∉ valDescription (castStr "description" v) := by
  cases v with
  | vStr s =>
    simp only [castStr, valDescription, reqMaxlen]
    split
    · decide
    · split
      · decide
      · simp
  | vArr a =>
    simp only [castStr, valDescription, reqMaxlen]
    decide
  | vNull => decide

lemma ghMsg_notin_valCategory (v : JSValue) :
    githubUrlMsg ∉ valCategory (castStr "category" v) := by
  cases v with
  | vStr s =>
    simp only [castStr, valCategory]
    split
    · decide
    · split
      · simp
      · intro hmem
        rw [List.mem_singleton] at hmem
        exact ghMsg_ne_catMsg s hmem.symm
  | vArr a =>
    simp only [castStr, valCategory]
    decide
  | vNull => decide

lemma ghMsg_notin_valTechnologies (l : List String) :
    githubUrlMsg ∉ valTechnologies l := by
  simp only [valTechnologies]
  split
  · decide
  · simp

lemma ghMsg_notin_valHighlights (l : List String) :
    githubUrlMsg ∉ valHighlights l := by
  simp only [valHighlights]
  split
  · decide
  · simp

lemma ghMsg_notin_valImage (v : JSValue) :
    githubUrlMsg ∉ valImage (castStr "image" v) := by
  cases v with
  | vStr s => simp [castStr, valImage]
  | vArr a => simp only [castStr, valImage]; decide
  | vNull => decide

lemma ghMsg_notin_valLive (v : JSValue) :
    githubUrlMsg ∉ valLive (castStr "live" v) := by
  cases v with
  | vStr s =>
    simp only [castStr, valLive, valUrl]
    split
    · simp
    · split
      · simp
      · decide
  | vArr a =>
    simp only [castStr, valLive, valUrl]
    decide
  | vNull => decide

lemma ghMsg_notin_valImpact (v : JSValue) :
    githubUrlMsg ∉ valImpact (castStr "impact" v) := by
  cases v with
  | vStr s =>
    simp only [castStr, valImpact]
    split
    · decide
    · simp
  | vArr a =>
    simp only [castStr, valImpact]
    decide
  | vNull => decide

lemma ghMsg_notin_createErrors (b : Body)
    (hgh : valGithub (createCandidate b).github = []) :
    githubUrlMsg ∉ candErrors (createCandidate b) := by
  intro hmem
  simp only [createCandidate] at hgh
  simp only [candErrors, createCandidate, List.mem_append] at hmem
  rcases hmem with ((((((((h|h)|h)|h)|h)|h)|h)|h)|h)
  · exact ghMsg_notin_valTitle _ h
  · exact ghMsg_notin_valDescription _ h
  · exact ghMsg_notin_valCategory _ h
  · exact ghMsg_notin_valTechnologies _ h
  · exact ghMsg_notin_valHighlights _ h
  · exact ghMsg_notin_valImage _ h
  · rw [hgh] at h; cases h
  · exact ghMsg_notin_valLive _ h
  · exact ghMsg_notin_valImpact _ h

theorem spec_c7 (st : Store) (now : Nat) (b : Body) (s : String) :
    (presenceOk b = true → b.github = some (.vStr s) → s ≠ "" → matchesGithubUrl s = false →
      (createProject st now b).1.status = 400 ∧
      ∃ l, (createProject st now b).1.errors = some l ∧ githubUrlMsg ∈ l) ∧
    (matchesGithubUrl s = true → valGithub (.ok (some s)) = []) ∧
    (valGithub (.ok none) = [] ∧ valGithub (.ok (some "")) = []) ∧
    (presenceOk b = true → (b.github = none ∨ b.github = some (.vStr "")) →
      ∀ l, (createProject st now b).1.errors = some l → githubUrlMsg ∉ l) := by
  refine ⟨?_, ?_, ?_, ?_⟩
  · intro hp hg hs hm
    have hsb : (s == "") = false := by simpa using hs
    have hgval : valGithub (createCandidate b).github = [githubUrlMsg] := by
      simp [createCandidate, hg, orNullJS, truthy, hsb, castStr, valGithub, valUrl, hm]
    have hmem : githubUrlMsg ∈ candErrors (createCandidate b) := by
      simp only [candErrors, List.mem_append]
      exact Or.inl (Or.inl (Or.inr (hgval ▸ List.mem_singleton_self githubUrlMsg)))
    have hne : candErrors (createCandidate b) ≠ [] := List.ne_nil_of_mem hmem
    have hie : (candErrors (createCandidate b)).isEmpty = false := by simpa using hne
    refine ⟨?_, candErrors (createCandidate b), ?_, hmem⟩
    · simp [createProject, hp, createValid, hie]
    · simp [createProject, hp, createValid, hie]
  · intro h
    have hs0 : (s == "") = false := by
      cases he : s == "" with
      | false => rfl
      | true =>
        have hse : s = "" := by simpa using he
        rw [hse] at h
        exact absurd h (by decide)
    simp [valGithub, valUrl, hs0, h]
  · exact ⟨by decide, by decide⟩
  · intro hp hcase l hl
    have hgh : valGithub (createCandidate b).github = [] := by
      rcases hcase with h | h <;>
        simp [createCandidate, h, orNullJS, truthy, castStr, valGithub, valUrl]
    have hno := ghMsg_notin_createErrors b hgh
    cases hie : (candErrors (createCandidate b)).isEmpty with
    | true => simp [createProject, hp, createValid, hie] at hl
    | false =>
      simp [createProject, hp, createValid, hie] at hl
      exact hl ▸ hno

theorem spec_c7_witness :
    ((createProject emptyStore 5
        { demoBody with github := some (.vStr "https://evil.com") }).1.status = 400 ∧
      ∃ l, (createProject emptyStore 5
        { demoBody with github := some (.vStr "https://evil.com") }).1.errors = some l ∧
        githubUrlMsg ∈ l) ∧
    valGithub (.ok (some "https://github.com/me/repo")) = [] :=
  ⟨(spec_c7 emptyStore 5 { demoBody with github := some (.vStr "https://evil.com") }
      "https://evil.com").1 (by decide) rfl (by decide) (by decide),
   (spec_c7 emptyStore 5 demoBody "https://github.com/me/repo").2.1 (by decide)⟩

/-! ## C10 - falsy core fields are ignored on update -/

lemma updateProject_congr (st : Store) (now : Nat) (idStr : String) (b1 b2 : Body)
    (h : ∀ p, updateCandidate p b1 = updateCandidate p b2) :
    updateProject st now idStr b1 = updateProject st now idStr b2 := by
  cases hc : normalizeId idStr with
  | none => simp only [updateProject, hc]
  | some nid =>
    cases hfind : st.records.find? (fun q => q.id == nid) with
    | none => simp only [updateProject, hc, hfind]
    | some p => simp only [updateProject, hc, hfind, updateFound, h p]

lemma eq_of_mem_id_nodup {l : List Project} (hnd : (l.map Project.id).Nodup)
    {p q : Project} (hp : p ∈ l) (hq : q ∈ l) (h : q.id = p.id) : q = p :=
  List.inj_on_of_nodup_map hnd hq hp h

/-- Claim C10: on update, a supplied but falsy value for title, description,
category or technologies is silently ignored — the outcome equals that of
the same request without the field, and when all four are absent the stored
record keeps all four fields. -/
theorem spec_c10 (st : Store) (now : Nat) (idStr : String) (b : Body) (v : JSValue)
    (p : Project) (hv : truthy v = false) :
    updateProject st now idStr { b with title := some v } =
      updateProject st now idStr { b with title := none } ∧
    updateProject st now idStr { b with description := some v } =
      updateProject st now idStr { b with description := none } ∧
    updateProject st now idStr { b with category := some v } =
      updateProject st now idStr { b with category := none } ∧
    updateProject st now idStr { b with technologies := some v } =
      updateProject st now idStr { b with technologies := none } ∧
    ((st.records.map Project.id).Nodup → findProjectById st idStr = some p →
      b.title = none → b.description = none → b.category = none → b.technologies = none →
      ∀ q', q' ∈ (updateProject st now idStr b).2.records → q'.id = p.id →
        q'.title = p.title ∧ q'.description = p.description ∧ q'.category = p.category ∧
        q'.technologies = p.technologies) := by
  refine ⟨?_, ?_, ?_, ?_, ?_⟩
  · exact updateProject_congr st now idStr _ _ (fun q => by
      simp [updateCandidate, newScalarTruthyTrim, hv])
  · exact updateProject_congr st now idStr _ _ (fun q => by
      simp [updateCandidate, newScalarTruthy, hv])
  · exact updateProject_congr st now idStr _ _ (fun q => by
      simp [updateCandidate, newScalarTruthy, hv])
  · exact updateProject_congr st now idStr _ _ (fun q => by
      simp [updateCandidate, newArrTruthy, hv])
  · intro hnd hf hb1 hb2 hb3 hb4 q' hq' hqid
    cases hc : normalizeId idStr with
    | none => simp only [findProjectById, hc] at hf; cases hf
    | some nid =>
      simp only [findProjectById, hc] at hf
      have hpmem : p ∈ st.records := List.mem_of_find?_eq_some hf
      simp only [updateProject, hc, hf, updateFound] at hq'
      by_cases hie : (candErrors (updateCandidate p b)).isEmpty = true
      · rw [if_pos hie] at hq'
        simp only at hq'
        obtain ⟨q, hq, hqe⟩ := List.mem_map.mp hq'
        by_cases hqp : (q.id == p.id) = true
        · rw [if_pos hqp] at hqe
          subst hqe
          refine ⟨?_, ?_, ?_, ?_⟩ <;>
            simp [candDoc, updateCandidate, hb1, hb2, hb3, hb4,
              newScalarTruthyTrim, newScalarTruthy, newArrTruthy, exVal]
        · rw [if_neg hqp] at hqe
          subst hqe
          exact absurd (by simp [hqid]) hqp
      · rw [if_neg hie] at hq'
        simp only at hq'
        have : q' = p := eq_of_mem_id_nodup hnd hpmem hq' hqid
        subst this
        exact ⟨rfl, rfl, rfl, rfl⟩

/-- Witness for `spec_c10` on a concrete store and falsy value. -/
theorem spec_c10_witness :
    updateProject demoStore 2 "aaaaaaaaaaaaaaaaaaaaaaaa"
      { title := some (.vStr ""), description := none, category := none,
        technologies := none, highlights := none, image := none, github := none,
        live := none, impact := none } =
    updateProject demoStore 2 "aaaaaaaaaaaaaaaaaaaaaaaa"
      { title := none, description := none, category := none,
        technologies := none, highlights := none, image := none, github := none,
        live := none, impact := none } :=
  (spec_c10 demoStore 2 "aaaaaaaaaaaaaaaaaaaaaaaa"
    { title := none, description := none, category := none, technologies := none,
      highlights := none, image := none, github := none, live := none, impact := none }
    (.vStr "") demoProj (by decide)).1

/-! ## C3 - impact-only update frame property -/

/-- The update body that supplies only `impact`. -/
def impactOnlyBody (v : JSValue) : Body :=
  { title := none, description := none, category := none, technologies := none,
    highlights := none, image := none, github := none, live := none, impact := some v }

/-- Claim C3: updating an existing record with a body supplying only
`impact` leaves every other record intact and leaves the record itself
unchanged in every field other than impact and updatedAt, with the new
updatedAt at least the previous one. -/
theorem spec_c3 (st : Store) (now : Nat) (idStr : String) (v : JSValue) (p : Project)
    (hnd : (st.records.map Project.id).Nodup)
    (hf : findProjectById st idStr = some p)
    (hmono : p.updatedAt ≤ now) :
    (∀ q' ∈ (updateProject st now idStr (impactOnlyBody v)).2.records,
      q'.id ≠ p.id → q' ∈ st.records) ∧
    (∀ q' ∈ (updateProject st now idStr (impactOnlyBody v)).2.records,
      q'.id = p.id →
        q'.title = p.title ∧ q'.description = p.description ∧ q'.category = p.category ∧
        q'.technologies = p.technologies ∧ q'.highlights = p.highlights ∧
        q'.image = p.image ∧ q'.github = p.github ∧ q'.live = p.live ∧
        q'.createdAt = p.createdAt ∧ p.updatedAt ≤ q'.updatedAt) := by
  cases hc : normalizeId idStr with
  | none => simp only [findProjectById, hc] at hf; cases hf
  | some nid =>
    simp only [findProjectById, hc] at hf
    have hpmem : p ∈ st.records := List.mem_of_find?_eq_some hf
    constructor
    · intro q' hq' hne
      simp only [updateProject, hc, hf, updateFound] at hq'
      by_cases hie : (candErrors (updateCandidate p (impactOnlyBody v))).isEmpty = true
      · rw [if_pos hie] at hq'
        simp only at hq'
        obtain ⟨q, hq, hqe⟩ := List.mem_map.mp hq'
        by_cases hqp : (q.id == p.id) = true
        · rw [if_pos hqp] at hqe
          subst hqe
          simp [candDoc] at hne
        · rw [if_neg hqp] at hqe
          subst hqe
          exact hq
      · rw [if_neg hie] at hq'
        exact hq'
    · intro q' hq' hqid
      simp only [updateProject, hc, hf, updateFound] at hq'
      by_cases hie : (candErrors (updateCandidate p (impactOnlyBody v))).isEmpty = true
      · rw [if_pos hie] at hq'
        simp only at hq'
        obtain ⟨q, hq, hqe⟩ := List.mem_map.mp hq'
        by_cases hqp : (q.id == p.id) = true
        · rw [if_pos hqp] at hqe
          subst hqe
          refine ⟨?_, ?_, ?_, ?_, ?_, ?_, ?_, ?_, ?_, ?_⟩ <;>
            simp [candDoc, updateCandidate, impactOnlyBody, newScalarTruthyTrim,
              newScalarTruthy, newArrTruthy, newScalarDefined, exVal, hmono]
        · rw [if_neg hqp] at hqe
          subst hqe
          exact absurd (by simp [hqid]) hqp
      · rw [if_neg hie] at hq'
        have : q' = p := eq_of_mem_id_nodup hnd hpmem hq' hqid
        subst this
        exact ⟨rfl, rfl, rfl, rfl, rfl, rfl, rfl, rfl, rfl, le_refl _⟩

/-- Witness for `spec_c3`: on the concrete store, the record written by an
impact-only update keeps its title and its updatedAt does not decrease. -/
theorem spec_c3_witness :
    (candDoc "aaaaaaaaaaaaaaaaaaaaaaaa" 1 2
      (updateCandidate demoProj (impactOnlyBody (.vStr "Improved")))).title = demoProj.title ∧
    demoProj.updatedAt ≤ (candDoc "aaaaaaaaaaaaaaaaaaaaaaaa" 1 2
      (updateCandidate demoProj (impactOnlyBody (.vStr "Improved")))).updatedAt := by
  have h := (spec_c3 demoStore 2 "aaaaaaaaaaaaaaaaaaaaaaaa" (.vStr "Improved") demoProj
    (by decide) (by decide) (by decide)).2
    (candDoc "aaaaaaaaaaaaaaaaaaaaaaaa" 1 2
      (updateCandidate demoProj (impactOnlyBody (.vStr "Improved"))))
    (by decide) (by decide)
  exact ⟨h.1, h.2.2.2.2.2.2.2.2.2⟩

/-! ## C4 - nullable fields overwritten exactly when supplied -/

/-- The stored value of a supplied nullable-field body value: a string is
stored as-is (empty string included), null clears the field.  (A supplied
array fails the string cast, so no successful update carries one.) -/
def storedOf : JSValue → Option String
  | .vStr s => some s
  | .vNull => none
  | .vArr _ => none

/-- Claim C4: on a successful update of an existing record, each of image,
github, live, impact is overwritten exactly when supplied — a supplied
empty string or null is still applied — and an absent field keeps the
stored value. -/
theorem spec_c4 (st : Store) (now : Nat) (idStr : String) (b : Body) (p : Project)
    (hf : findProjectById st idStr = some p)
    (h200 : (updateProject st now idStr b).1.status = 200) :
    ∃ p', (updateProject st now idStr b).1.data = some p' ∧
      (updateProject st now idStr b).2.records =
        st.records.map (fun q => if q.id == p.id then p' else q) ∧
      (b.image = none → p'.image = p.image) ∧
      (∀ v, b.image = some v → p'.image = storedOf v) ∧
      (b.github = none → p'.github = p.github) ∧
      (∀ v, b.github = some v → p'.github = storedOf v) ∧
      (b.live = none → p'.live = p.live) ∧
      (∀ v, b.live = some v → p'.live = storedOf v) ∧
      (b.impact = none → p'.impact = p.impact) ∧
      (∀ v, b.impact = some v → p'.impact = storedOf v) := by
  cases hc : normalizeId idStr with
  | none => simp only [findProjectById, hc] at hf; cases hf
  | some nid =>
    simp only [findProjectById, hc] at hf
    simp only [updateProject, hc, hf, updateFound] at h200 ⊢
    by_cases hie : (candErrors (updateCandidate p b)).isEmpty = true
    · rw [if_pos hie] at h200 ⊢
      have hnil : candErrors (updateCandidate p b) = [] := by simpa using hie
      simp only [candErrors, List.append_eq_nil] at hnil
      obtain ⟨⟨⟨⟨⟨⟨⟨⟨h1, h2⟩, h3⟩, h4⟩, h5⟩, h6⟩, h7⟩, h8⟩, h9⟩ := hnil
      refine ⟨candDoc p.id p.createdAt now (updateCandidate p b), rfl, rfl,
        ?_, ?_, ?_, ?_, ?_, ?_, ?_, ?_⟩
      · intro hbn
        simp [candDoc, updateCandidate, newScalarDefined, hbn, exVal]
      · intro v hbv
        cases v with
        | vStr s => simp [candDoc, updateCandidate, newScalarDefined, hbv, castStr, exVal, storedOf]
        | vNull => simp [candDoc, updateCandidate, newScalarDefined, hbv, castStr, exVal, storedOf]
        | vArr a =>
          exfalso
          simp [updateCandidate, newScalarDefined, hbv, castStr, valImage] at h6
      · intro hbn
        simp [candDoc, updateCandidate, newScalarDefined, hbn, exVal]
      · intro v hbv
        cases v with
        | vStr s => simp [candDoc, updateCandidate, newScalarDefined, hbv, castStr, exVal, storedOf]
        | vNull => simp [candDoc, updateCandidate, newScalarDefined, hbv, castStr, exVal, storedOf]
        | vArr a =>
          exfalso
          simp [updateCandidate, newScalarDefined, hbv, castStr, valGithub, valUrl] at h7
      · intro hbn
        simp [candDoc, updateCandidate, newScalarDefined, hbn, exVal]
      · intro v hbv
        cases v with
        | vStr s => simp [candDoc, updateCandidate, newScalarDefined, hbv, castStr, exVal, storedOf]
        | vNull => simp [candDoc, updateCandidate, newScalarDefined, hbv, castStr, exVal, storedOf]
        | vArr a =>
          exfalso
          simp [updateCandidate, newScalarDefined, hbv, castStr, valLive, valUrl] at h8
      · intro hbn
        simp [candDoc, updateCandidate, newScalarDefined, hbn, exVal]
      · intro v hbv
        cases v with
        | vStr s => simp [candDoc, updateCandidate, newScalarDefined, hbv, castStr, exVal, storedOf]
        | vNull => simp [candDoc, updateCandidate, newScalarDefined, hbv, castStr, exVal, storedOf]
        | vArr a =>
          exfalso
          simp [updateCandidate, newScalarDefined, hbv, castStr, valImpact] at h9
    · rw [if_neg hie] at h200
      simp at h200

/-- A body supplying an empty-string image, a null github and an impact. -/
def c4Body : Body :=
  { title := none, description := none, category := none, technologies := none,
    highlights := none, image := some (.vStr ""), github := some .vNull,
    live := none, impact := some (.vStr "done") }

/-- Witness for `spec_c4` on a concrete successful update. -/
theorem spec_c4_witness :
    ∃ p', (updateProject demoStore 2 "aaaaaaaaaaaaaaaaaaaaaaaa" c4Body).1.data = some p' ∧
      (updateProject demoStore 2 "aaaaaaaaaaaaaaaaaaaaaaaa" c4Body).2.records =
        demoStore.records.map (fun q => if q.id == demoProj.id then p' else q) ∧
      (c4Body.image = none → p'.image = demoProj.image) ∧
      (∀ v, c4Body.image = some v → p'.image = storedOf v) ∧
      (c4Body.github = none → p'.github = demoProj.github) ∧
      (∀ v, c4Body.github = some v → p'.github = storedOf v) ∧
      (c4Body.live = none → p'.live = demoProj.live) ∧
      (∀ v, c4Body.live = some v → p'.live = storedOf v) ∧
      (c4Body.impact = none → p'.impact = demoProj.impact) ∧
      (∀ v, c4Body.impact = some v → p'.impact = storedOf v) :=
  spec_c4 demoStore 2 "aaaaaaaaaaaaaaaaaaaaaaaa" c4Body demoProj (by decide) (by decide)

/-! ## C6 - invariants of reachable stores -/

lemma valTechnologies_nil {l : List String} (h : valTechnologies l = []) : l ≠ [] := by
  intro hl
  subst hl
  simp [valTechnologies] at h

lemma valCategory_nil {e : Except String (Option String)} (h : valCategory e = []) :
    ∃ c, e = .ok (some c) ∧ c ∈ validCategories := by
  match e with
  | .error m => simp [valCategory] at h
  | .ok none => simp [valCategory] at h
  | .ok (some s) =>
    simp only [valCategory] at h
    split at h
    · cases h
    · split at h
      · next hmem => exact ⟨s, rfl, hmem⟩
      · cases h

lemma reachable_inv {s : Store} {t : Nat} (h : Reachable s t) :
    ∀ p ∈ s.records, p.technologies ≠ [] ∧
      (∃ c, p.category = some c ∧ c ∈ validCategories) ∧
      p.createdAt ≤ p.updatedAt ∧ p.updatedAt ≤ t := by
  induction h with
  | init =>
    intro p hp
    simp [emptyStore] at hp
  | create s t t' b hr hle ih =>
    intro p hp
    by_cases hpok : presenceOk b = true
    · simp only [createProject] at hp
      rw [if_pos hpok] at hp
      simp only [createValid] at hp
      by_cases hie : (candErrors (createCandidate b)).isEmpty = true
      · rw [if_pos hie] at hp
        simp only at hp
        rcases List.mem_append.mp hp with hold | hnew
        · have hi := ih p hold
          exact ⟨hi.1, hi.2.1, hi.2.2.1, le_trans hi.2.2.2 hle⟩
        · have hpd : p = candDoc (objectIdOfNat s.nextId) t' t' (createCandidate b) := by
            simpa using hnew
          subst hpd
          have hnil : candErrors (createCandidate b) = [] := by simpa using hie
          simp only [candErrors, List.append_eq_nil] at hnil
          obtain ⟨⟨⟨⟨⟨⟨⟨⟨h1, h2⟩, h3⟩, h4⟩, h5⟩, h6⟩, h7⟩, h8⟩, h9⟩ := hnil
          refine ⟨?_, ?_, le_refl _, le_refl _⟩
          · have htech := valTechnologies_nil h4
            simpa [candDoc] using htech
          · obtain ⟨c, hc1, hc2⟩ := valCategory_nil h3
            exact ⟨c, by simp [candDoc, hc1, exVal], hc2⟩
      · rw [if_neg hie] at hp
        simp only at hp
        have hi := ih p hp
        exact ⟨hi.1, hi.2.1, hi.2.2.1, le_trans hi.2.2.2 hle⟩
    · simp only [createProject] at hp
      rw [if_neg hpok] at hp
      simp only at hp
      have hi := ih p hp
      exact ⟨hi.1, hi.2.1, hi.2.2.1, le_trans hi.2.2.2 hle⟩
  | update s t t' idStr b hr hle ih =>
    intro p hp
    cases hc : normalizeId idStr with
    | none =>
      simp only [updateProject, hc] at hp
      have hi := ih p hp
      exact ⟨hi.1, hi.2.1, hi.2.2.1, le_trans hi.2.2.2 hle⟩
    | some nid =>
      cases hfind : s.records.find? (fun q => q.id == nid) with
      | none =>
        simp only [updateProject, hc, hfind] at hp
        have hi := ih p hp
        exact ⟨hi.1, hi.2.1, hi.2.2.1, le_trans hi.2.2.2 hle⟩
      | some q0 =>
        simp only [updateProject, hc, hfind, updateFound] at hp
        by_cases hie : (candErrors (updateCandidate q0 b)).isEmpty = true
        · rw [if_pos hie] at hp
          simp only at hp
          obtain ⟨q, hq, hqe⟩ := List.mem_map.mp hp
          by_cases hqp : (q.id == q0.id) = true
          · rw [if_pos hqp] at hqe
            subst hqe
            have hi0 := ih q0 (List.mem_of_find?_eq_some hfind)
            have hnil : candErrors (updateCandidate q0 b) = [] := by simpa using hie
            simp only [candErrors, List.append_eq_nil] at hnil
            obtain ⟨⟨⟨⟨⟨⟨⟨⟨h1, h2⟩, h3⟩, h4⟩, h5⟩, h6⟩, h7⟩, h8⟩, h9⟩ := hnil
            refine ⟨?_, ?_, ?_, le_refl _⟩
            · have htech := valTechnologies_nil h4
              simpa [candDoc] using htech
            · obtain ⟨c, hc1, hc2⟩ := valCategory_nil h3
              exact ⟨c, by simp [candDoc, hc1, exVal], hc2⟩
            · have : q0.createdAt ≤ t' :=
                le_trans hi0.2.2.1 (le_trans hi0.2.2.2 hle)
              simpa [candDoc] using this
          · rw [if_neg hqp] at hqe
            subst hqe
            have hi := ih q hq
            exact ⟨hi.1, hi.2.1, hi.2.2.1, le_trans hi.2.2.2 hle⟩
        · rw [if_neg hie] at hp
          simp only at hp
          have hi := ih p hp
          exact ⟨hi.1, hi.2.1, hi.2.2.1, le_trans hi.2.2.2 hle⟩
  | delete s t idStr hr ih =>
    intro p hp
    cases hc : normalizeId idStr with
    | none =>
      simp only [deleteProject, hc] at hp
      exact ih p hp
    | some nid =>
      cases hfind : s.records.find? (fun q => q.id == nid) with
      | none =>
        simp only [deleteProject, hc, hfind] at hp
        exact ih p hp
      | some q0 =>
        simp only [deleteProject, hc, hfind] at hp
        exact ih p (List.mem_of_mem_eraseP hp)

/-- Claim C6: every record of every store reachable through successful
create/update/delete operations has non-empty technologies, a category in
the fixed five-value enum, and updatedAt at least createdAt. -/
theorem spec_c6 (s : Store) (t : Nat) (p : Project)
    (h : Reachable s t) (hp : p ∈ s.records) :
    p.technologies ≠ [] ∧
    (∃ c, p.category = some c ∧ c ∈ validCategories) ∧
    p.createdAt ≤ p.updatedAt :=
  have hi := reachable_inv h p hp
  ⟨hi.1, hi.2.1, hi.2.2.1⟩

/-- Witness for `spec_c6`: a store reached by one successful create holds a
record satisfying the invariants. -/
theorem spec_c6_witness :
    (candDoc (objectIdOfNat 0) 5 5 (createCandidate demoBody)).technologies ≠ [] ∧
    (∃ c, (candDoc (objectIdOfNat 0) 5 5 (createCandidate demoBody)).category = some c ∧
      c ∈ validCategories) ∧
    (candDoc (objectIdOfNat 0) 5 5 (createCandidate demoBody)).createdAt ≤
      (candDoc (objectIdOfNat 0) 5 5 (createCandidate demoBody)).updatedAt :=
  spec_c6 (createProject emptyStore 5 demoBody).2 5
    (candDoc (objectIdOfNat 0) 5 5 (createCandidate demoBody))
    (Reachable.create emptyStore 0 5 demoBody Reachable.init (Nat.zero_le 5))
    (by decide)
